import Mathlib

/-!
Verification of the Z3ube provider-dispatch and interaction-learner core.

The repository ships the SQL schema of the learner's store
(src/unnamed/part_000: the interactions and patterns tables) and the chat
client (src/frontend/app/chat/page.tsx); the backend dispatcher and learner
bodies are not part of the checked-in sources, so those operations are
modelled from the specification (each such definition says so in its doc
comment).  Fractional quantities (success_rate, confidence) are embedded as
exact rationals.
-/

namespace Z3ube

/-- Row of the interactions table (src/unnamed/part_000, lines 8-17):
id, query, response, success, feedback, timestamp, tags, embedding.
Timestamps are abstracted to naturals and the optional 384-dimensional
embedding vector to an optional list of rationals. -/
structure Interaction where
  id : String
  query : String
  response : String
  success : Bool
  feedback : Option String
  timestamp : Nat
  tags : List String
  embedding : Option (List Rat)
deriving Repr, DecidableEq

/-- Row of the patterns table (src/unnamed/part_000, lines 20-28):
pattern_type, description, occurrences, success_rate, examples, confidence.
The examples column (JSONB list of interaction references) is a list of
interaction identifiers. -/
structure Pattern where
  pattern_type : String
  description : String
  occurrences : Nat
  success_rate : Rat
  examples : List String
  confidence : Rat
deriving Repr, DecidableEq

/-- Characters of a string with leading and trailing whitespace removed. -/
def trimChars (l : List Char) : List Char :=
  ((l.dropWhile Char.isWhitespace).reverse.dropWhile Char.isWhitespace).reverse

/-- The JavaScript `String.prototype.trim()` used by the client's guards:
strip whitespace from both ends. -/
def jsTrim (s : String) : String := String.mk (trimChars s.data)

/-- Numeric value of a boolean outcome, used by the running-mean update. -/
def outcomeVal (b : Bool) : Rat := if b then 1 else 0

/-- Modelled from the spec: the confidence curve is an implementation
choice that must be bounded in `[0,1]` and non-decreasing in occurrences
("approaches 1 as occurrences grows"); we take `n / (n + 1)`. -/
def confidenceOf (n : Nat) : Rat := (n : Rat) / ((n : Rat) + 1)

/-- Modelled from the spec: the learner's per-row aggregation step, absent
from the checked-in sources.  `occurrences` increments by one and
`success_rate` is recomputed as the running mean
`(old_rate * old_occurrences + new_outcome) / new_occurrences`;
`confidence` is refreshed from the new occurrence count. -/
def recordOutcome (p : Pattern) (outcome : Bool) : Pattern :=
  { p with
    occurrences := p.occurrences + 1,
    success_rate :=
      (p.success_rate * (p.occurrences : Rat) + outcomeVal outcome)
        / ((p.occurrences : Rat) + 1),
    confidence := confidenceOf (p.occurrences + 1) }

/-- Bound on the examples column (spec: "bounded sequence of representative
interaction references"). -/
def exampleBound : Nat := 5

/-- Append an interaction reference to a row's examples, keeping the list
bounded. -/
def pushExample (ex : List String) (iid : String) : List String :=
  (ex ++ [iid]).take exampleBound

/-- Modelled from the spec: the full update a matching `record` call applies
to one Pattern row — the running-mean aggregation step plus the bounded
examples append. -/
def updateRow (p : Pattern) (i : Interaction) : Pattern :=
  { recordOutcome p i.success with examples := pushExample p.examples i.id }

/-- A fresh Pattern row for a tag seen for the first time, before any
matching interaction has been aggregated into it. -/
def zeroPattern (tag : String) : Pattern :=
  { pattern_type := tag
    description := tag
    occurrences := 0
    success_rate := 0
    examples := []
    confidence := 0 }

/-- Number of successful outcomes in a list of interactions. -/
def successCount (is : List Interaction) : Nat :=
  is.countP (fun i => i.success)

/-- The learner's store: the interactions log and the derived pattern rows.
The tables live in a relational store; order of the interactions list is
insertion order. -/
structure LearnerState where
  interactions : List Interaction
  patterns : List Pattern
deriving Repr

/-- The empty store. -/
def emptyLearner : LearnerState := { interactions := [], patterns := [] }

/-- Modelled from the spec: aggregate one interaction into the pattern rows
for one of its tags — update the existing row with that pattern_type if
present, otherwise create the row on first occurrence. -/
def applyTag (i : Interaction) (ps : List Pattern) (tag : String) : List Pattern :=
  if ps.any (fun p => p.pattern_type = tag) then
    ps.map (fun p => if p.pattern_type = tag then updateRow p i else p)
  else
    ps ++ [updateRow (zeroPattern tag) i]

/-- Modelled from the spec: each `record` call updates exactly the Pattern
rows whose pattern_type matches one of the interaction's tags, at most one
update per tag per interaction. -/
def updatePatterns (ps : List Pattern) (i : Interaction) : List Pattern :=
  i.tags.foldl (applyTag i) ps

/-- Modelled from the spec: `record(interaction)` appends the interaction to
the store (never rejects a well-formed interaction) and incrementally
maintains the matching pattern rows. -/
def record (st : LearnerState) (i : Interaction) : LearnerState :=
  { interactions := st.interactions ++ [i]
    patterns := updatePatterns st.patterns i }

/-- Result of `applyFeedback`. -/
inductive FeedbackResult where
  | ok
  | notFound
deriving Repr, DecidableEq

/-- Modelled from the spec: `applyFeedback(interactionId, success,
feedbackText)` updates only the mutable fields (`success`, `feedback`) of an
existing interaction and fails with `NotFound` when the identifier is
unknown, leaving the store untouched. -/
def applyFeedback (st : LearnerState) (iid : String) (succ : Bool)
    (fb : String) : LearnerState × FeedbackResult :=
  if st.interactions.any (fun i => i.id = iid) then
    ({ st with
        interactions := st.interactions.map (fun i =>
          if i.id = iid then { i with success := succ, feedback := some fb }
          else i) },
      FeedbackResult.ok)
  else
    (st, FeedbackResult.notFound)

/-- The read-only snapshot returned by `stats()`. -/
structure Stats where
  total_interactions : Nat
  success_rate : Rat
  patterns_identified : Nat
  top_success_strategies : List String
deriving Repr, DecidableEq

/-- Modelled from the spec: `stats()` computes a snapshot from the current
store; success_rate is the exact count-based ratio of interactions with
`success = true` over all logged interactions. -/
def stats (st : LearnerState) : Stats :=
  { total_interactions := st.interactions.length
    success_rate :=
      (successCount st.interactions : Rat) / (st.interactions.length : Rat)
    patterns_identified := st.patterns.length
    top_success_strategies :=
      ((st.patterns.filter (fun p => (1 : Rat) / 2 ≤ p.success_rate)).map
        (fun p => p.pattern_type)) }

/-- Modelled from the spec: `patternsFor(tag)` returns the pattern rows with
the given pattern_type, ordered by descending confidence. -/
def patternsFor (st : LearnerState) (tag : String) : List Pattern :=
  (st.patterns.filter (fun p => p.pattern_type = tag)).mergeSort
    (fun a b => b.confidence ≤ a.confidence)

/-- One operation of the learner's public contract. -/
inductive Op where
  | record (i : Interaction)
  | feedback (iid : String) (succ : Bool) (fb : String)
  | stats
  | patternsFor (tag : String)

/-- State transition of one learner operation; the read-only queries leave
the store unchanged. -/
def step (st : LearnerState) : Op → LearnerState
  | Op.record i => record st i
  | Op.feedback iid s f => (applyFeedback st iid s f).1
  | Op.stats => st
  | Op.patternsFor _ => st

/-- Run a sequence of learner operations. -/
def run (st : LearnerState) (ops : List Op) : LearnerState :=
  ops.foldl step st

/-- Two interactions agree on every field except the mutable `success` and
`feedback` fields. -/
def immutEq (a b : Interaction) : Prop :=
  a.id = b.id ∧ a.query = b.query ∧ a.response = b.response ∧
    a.tags = b.tags ∧ a.timestamp = b.timestamp ∧ a.embedding = b.embedding

/-- Desired depth-of-reasoning level of a request. -/
inductive Depth where
  | quick
  | normal
  | deep
deriving Repr, DecidableEq

/-- A dispatch request: message text, optional attached image (as an opaque
payload), and depth level — the JSON body of the streaming chat endpoint. -/
structure Request where
  text : String
  image : Option String
  depth : Depth

/-- A provider of the capability table: an identifier and the uniform
adapter `generate`, which either yields a response text or fails with a
reason (timeout, rate-limit, malformed response). -/
structure Provider where
  id : String
  generate : Request → Except String String

/-- Decidable equality for `Except`, needed to evaluate concrete dispatch
outcomes. -/
instance {ε α : Type} [DecidableEq ε] [DecidableEq α] :
    DecidableEq (Except ε α) := fun a b =>
  match a, b with
  | Except.ok x, Except.ok y =>
    if h : x = y then isTrue (by rw [h]) else isFalse (by intro hc; cases hc; exact h rfl)
  | Except.error x, Except.error y =>
    if h : x = y then isTrue (by rw [h]) else isFalse (by intro hc; cases hc; exact h rfl)
  | Except.ok _, Except.error _ => isFalse (by intro hc; cases hc)
  | Except.error _, Except.ok _ => isFalse (by intro hc; cases hc)

/-- One attempted provider call and its outcome. -/
structure Attempt where
  provider : String
  result : Except String String
deriving Repr, DecidableEq

/-- The dispatcher's error taxonomy (the part reachable in this model):
invalid request shape, a single named provider's failure surfaced directly,
or chain exhaustion carrying every attempt and its failure reason. -/
inductive DispatchError where
  | invalidRequest
  | providerFailed (id : String) (reason : String)
  | chainExhausted (attempts : List Attempt)
deriving Repr, DecidableEq

/-- Selection mode: `auto`, or an explicit provider identifier. -/
inductive Mode where
  | auto
  | named (id : String)
deriving Repr, DecidableEq

/-- Basic request validation from the spec's error taxonomy: an empty query
with no attachment is an invalid request. -/
def invalidShape (req : Request) : Bool :=
  jsTrim req.text == "" && req.image.isNone

/-- Modelled from the spec: the fallback loop over the candidate chain in
auto mode.  On a provider failure the dispatcher advances to the next
candidate; when the chain is exhausted it fails with `chainExhausted`
carrying every attempted provider and its failure reason.  `acc` is the
list of attempts made so far. -/
def runChain (req : Request) :
    List Provider → List Attempt → List Attempt × Except DispatchError String
  | [], acc => (acc, Except.error (DispatchError.chainExhausted acc))
  | p :: rest, acc =>
    match p.generate req with
    | Except.ok r => (acc ++ [⟨p.id, Except.ok r⟩], Except.ok r)
    | Except.error e => runChain req rest (acc ++ [⟨p.id, Except.error e⟩])

/-- Modelled from the spec: the candidate chain for auto mode is a
deterministic function of the depth over the static capability table; the
exact ranking is a tunable policy, modelled here as the table's own order
for every depth. -/
def chainFor (table : List Provider) (_d : Depth) : List Provider := table

/-- Modelled from the spec: `dispatch(request, mode)`.  Invalid input is
rejected synchronously before any provider is contacted.  In auto mode the
fallback chain is walked; when the mode names a provider, only that
provider is attempted and its failure is surfaced directly, with no
fallback.  An unknown explicit provider id is an invalid request.  The
first component is the trace of provider attempts made. -/
def dispatch (table : List Provider) (req : Request) (m : Mode) :
    List Attempt × Except DispatchError String :=
  if invalidShape req then ([], Except.error DispatchError.invalidRequest)
  else
    match m with
    | Mode.auto => runChain req (chainFor table req.depth) []
    | Mode.named pid =>
      match table.find? (fun p => p.id = pid) with
      | none => ([], Except.error DispatchError.invalidRequest)
      | some p =>
        match p.generate req with
        | Except.ok r => ([⟨p.id, Except.ok r⟩], Except.ok r)
        | Except.error e =>
          ([⟨p.id, Except.error e⟩],
            Except.error (DispatchError.providerFailed p.id e))

/-- A reasoning step record of the stream (interface ThinkingStep of
src/frontend/app/chat/page.tsx: step, thought, reasoning, confidence);
the confidence score is embedded as a rational. -/
structure ThinkingStep where
  step : Nat
  thought : String
  reasoning : String
  confidence : Rat
deriving Repr, DecidableEq

/-- A chat message of the client (interface Message of
src/frontend/app/chat/page.tsx: role, content, thinking_steps, image). -/
structure Message where
  role : String
  content : String
  thinking_steps : List ThinkingStep
  image : Option String
deriving Repr, DecidableEq

/-- The value a stream line yields once JSON.parse and the type/data field
dispatch succeed: a content fragment, a step record, or a well-formed JSON
value of neither type (which the client's updater ignores). -/
inductive StreamEvent where
  | content (s : String)
  | step (d : ThinkingStep)
  | other
deriving Repr, DecidableEq

/-- The update the client's setMessages callback applies to the last
message of the list for one parsed event
(src/frontend/app/chat/page.tsx, handleSubmit stream loop): a content
fragment is appended to the accumulated content, a step record is pushed
onto thinking_steps, anything else leaves the message unchanged. -/
def updateMsg (m : Message) : StreamEvent → Message
  | StreamEvent.content s => { m with content := m.content ++ s }
  | StreamEvent.step d =>
    { m with thinking_steps := m.thinking_steps ++ [d] }
  | StreamEvent.other => m

/-- Apply one parsed event to the message list: only the last message (the
assistant message under construction) is rewritten. -/
def applyEvent : List Message → StreamEvent → List Message
  | [], _ => []
  | [m], ev => [updateMsg m ev]
  | m :: rest, ev => m :: applyEvent rest ev

/-- One iteration of the client's per-line loop
(src/frontend/app/chat/page.tsx, handleSubmit): a blank line is skipped
(`if (!line.trim()) continue`), a line JSON.parse rejects is caught and
skipped (the catch only logs), and otherwise the parsed event is applied.
`parse` stands for the external JSON.parse plus type/data field access:
`none` means JSON.parse threw. -/
def clientLine (parse : String → Option StreamEvent)
    (msgs : List Message) (line : String) : List Message :=
  if jsTrim line = "" then msgs
  else
    match parse line with
    | none => msgs
    | some ev => applyEvent msgs ev

/-- The client's handling of one decoded chunk: split on newlines and run
the per-line loop over every piece. -/
def clientChunk (parse : String → Option StreamEvent)
    (msgs : List Message) (chunk : String) : List Message :=
  (chunk.splitOn "\n").foldl (clientLine parse) msgs

/-- The client's reader loop over the whole stream of chunks. -/
def clientStream (parse : String → Option StreamEvent)
    (msgs : List Message) (chunks : List String) : List Message :=
  chunks.foldl (clientChunk parse) msgs

/-- The empty assistant message the client appends before reading the
stream. -/
def assistantInit : Message :=
  { role := "assistant", content := "", thinking_steps := [], image := none }

/-- In-order concatenation of the content fragment payloads of an event
sequence. -/
def contentConcat : List StreamEvent → String
  | [] => ""
  | StreamEvent.content s :: rest => s ++ contentConcat rest
  | StreamEvent.step _ :: rest => contentConcat rest
  | StreamEvent.other :: rest => contentConcat rest

/-- The step payloads of an event sequence, in arrival order. -/
def stepsOf : List StreamEvent → List ThinkingStep
  | [] => []
  | StreamEvent.step d :: rest => d :: stepsOf rest
  | StreamEvent.content _ :: rest => stepsOf rest
  | StreamEvent.other :: rest => stepsOf rest

/-- The client's pre-submit state (src/frontend/app/chat/page.tsx):
message list, input box, optional selected image, loading flag. -/
structure ClientState where
  messages : List Message
  input : String
  selectedImage : Option String
  loading : Bool
deriving Repr, DecidableEq

/-- The guard and synchronous prefix of the client's handleSubmit
(src/frontend/app/chat/page.tsx:
`if ((!input.trim() && !selectedImage) || loading) return;`).  When the
guard fires, handleSubmit returns at once: no fetch happens and the message
list is untouched.  Otherwise the user message and the empty assistant
message are appended, the input and image are cleared, loading is set, and
the fetch is issued.  The boolean of the result records whether the network
call was made. -/
def handleSubmitStart (st : ClientState) : ClientState × Bool :=
  if (jsTrim st.input = "" ∧ st.selectedImage = none) ∨ st.loading then
    (st, false)
  else
    ({ messages := st.messages ++
        [{ role := "user", content := st.input, thinking_steps := [],
           image := st.selectedImage }, assistantInit]
       input := ""
       selectedImage := none
       loading := true }, true)

/-- A sample successful interaction, used to evaluate the theorems on
concrete inputs. -/
def sampleA : Interaction :=
  { id := "i1", query := "2+2?", response := "4", success := true,
    feedback := none, timestamp := 0, tags := ["math"], embedding := none }

/-- A sample failed interaction. -/
def sampleB : Interaction :=
  { id := "i2", query := "sky?", response := "", success := false,
    feedback := none, timestamp := 1, tags := ["math"], embedding := none }

/-- A sample well-formed request. -/
def sampleReq : Request :=
  { text := "2+2?", image := none, depth := Depth.quick }

/-- A provider that always times out. -/
def provTimeout : Provider :=
  { id := "openai", generate := fun _ => Except.error "timeout" }

/-- A provider that always hits a rate limit. -/
def provRate : Provider :=
  { id := "claude", generate := fun _ => Except.error "rate-limit" }

/-- A provider that always succeeds. -/
def provOk : Provider :=
  { id := "gemini", generate := fun _ => Except.ok "4" }

/-- A capability table whose providers all fail. -/
def failTable : List Provider := [provTimeout, provRate]

/-- A sample parse function standing for JSON.parse on three known lines. -/
def sampleParse : String → Option StreamEvent := fun l =>
  if l = "l1" then some (StreamEvent.content "Hel")
  else if l = "l2" then
    some (StreamEvent.step
      { step := 1, thought := "add", reasoning := "arith", confidence := 1 })
  else if l = "l3" then some (StreamEvent.content "lo")
  else none

/-- The events the three known lines of sampleParse carry. -/
def sampleEvents : List StreamEvent :=
  [StreamEvent.content "Hel"
    , StreamEvent.step
        { step := 1, thought := "add", reasoning := "arith", confidence := 1 }
    , StreamEvent.content "lo"]

lemma updateRow_occurrences (p : Pattern) (i : Interaction) :
    (updateRow p i).occurrences = p.occurrences + 1 := rfl

lemma updateRow_success_rate (p : Pattern) (i : Interaction) :
    (updateRow p i).success_rate =
      (p.success_rate * (p.occurrences : Rat) + outcomeVal i.success)
        / ((p.occurrences : Rat) + 1) := rfl

lemma foldl_updateRow_occ (is : List Interaction) (p : Pattern) :
    (is.foldl updateRow p).occurrences = p.occurrences + is.length := by
  induction is generalizing p with
  | nil => simp
  | cons i tl ih =>
    rw [List.foldl_cons, ih, updateRow_occurrences, List.length_cons]
    omega

lemma foldl_updateRow_mass (is : List Interaction) (p : Pattern) :
    (is.foldl updateRow p).success_rate
        * ((p.occurrences : Rat) + (is.length : Rat))
      = p.success_rate * (p.occurrences : Rat) + (successCount is : Rat) := by
  induction is generalizing p with
  | nil => simp [successCount]
  | cons i tl ih =>
    rw [List.foldl_cons]
    simp only [List.length_cons]
    have hne : ((p.occurrences : Rat) + 1) ≠ 0 := by positivity
    have h1 : (updateRow p i).success_rate * ((p.occurrences : Rat) + 1)
        = p.success_rate * (p.occurrences : Rat) + outcomeVal i.success := by
      rw [updateRow_success_rate, div_mul_cancel₀ _ hne]
    have h2 := ih (updateRow p i)
    rw [updateRow_occurrences] at h2
    push_cast at h2 ⊢
    have hcount : (successCount (i :: tl) : Rat)
        = (successCount tl : Rat) + outcomeVal i.success := by
      simp only [successCount, List.countP_cons, outcomeVal]
      rcases hb : i.success with _ | _ <;> push_cast <;> simp [hb]
    rw [hcount]
    have h2' : (tl.foldl updateRow (updateRow p i)).success_rate
        * ((p.occurrences : Rat) + 1 + (tl.length : Rat))
        = p.success_rate * (p.occurrences : Rat) + outcomeVal i.success
          + (successCount tl : Rat) := by
      rw [h2, h1]
    calc (tl.foldl updateRow (updateRow p i)).success_rate
        * ((p.occurrences : Rat) + ((tl.length : Rat) + 1))
        = (tl.foldl updateRow (updateRow p i)).success_rate
          * ((p.occurrences : Rat) + 1 + (tl.length : Rat)) := by ring
      _ = p.success_rate * (p.occurrences : Rat) + outcomeVal i.success
          + (successCount tl : Rat) := h2'
      _ = p.success_rate * (p.occurrences : Rat)
          + ((successCount tl : Rat) + outcomeVal i.success) := by ring

lemma record_updates_matching_row (st : LearnerState) (i : Interaction)
    (p : Pattern) (hp : st.patterns = [p]) (ht : i.tags = [p.pattern_type]) :
    (record st i).patterns = [updateRow p i] := by
  simp [record, updatePatterns, ht, hp, applyTag]

/-- Claim C1: starting from a fresh Pattern row, after N matching record
calls the row's occurrences equals N, and its success_rate — maintained by
the incremental running-mean update
`(old_rate * old_occurrences + new_outcome) / new_occurrences` — equals the
exact arithmetic mean of the N boolean outcomes, i.e. the value a full
recomputation from the history would give. -/
theorem running_mean_matches_full_recompute (p : Pattern)
    (is : List Interaction) (h0 : p.occurrences = 0)
    (hr : p.success_rate = 0) :
    (is.foldl updateRow p).occurrences = is.length ∧
    (is.foldl updateRow p).success_rate
      = (successCount is : Rat) / (is.length : Rat) := by
  have hocc := foldl_updateRow_occ is p
  have hmass := foldl_updateRow_mass is p
  rw [h0] at hocc
  rw [h0, hr] at hmass
  refine ⟨by simpa using hocc, ?_⟩
  rcases is with _ | ⟨i, tl⟩
  · simp [hr]
  · have hlen : ((i :: tl).length : Rat) ≠ 0 := by
      simp
      positivity
    rw [eq_div_iff hlen]
    push_cast at hmass ⊢
    linarith [hmass]

/-- Claim C1 witness: two matching record calls (one success, one failure)
on a fresh row yield occurrences 2 and success_rate 1/2. -/
theorem running_mean_matches_full_recompute_witness :
    ([sampleA, sampleB].foldl updateRow (zeroPattern "math")).occurrences
        = [sampleA, sampleB].length ∧
    ([sampleA, sampleB].foldl updateRow (zeroPattern "math")).success_rate
      = (successCount [sampleA, sampleB] : Rat)
          / (([sampleA, sampleB].length : Nat) : Rat) :=
  running_mean_matches_full_recompute (zeroPattern "math")
    [sampleA, sampleB] rfl rfl

lemma confidenceOf_nonneg (n : Nat) : 0 ≤ confidenceOf n := by
  unfold confidenceOf
  positivity

lemma confidenceOf_le_one (n : Nat) : confidenceOf n ≤ 1 := by
  unfold confidenceOf
  rw [div_le_one (by positivity)]
  linarith [Nat.cast_nonneg (α := Rat) n]

lemma confidenceOf_mono {n1 n2 : Nat} (h : n1 ≤ n2) :
    confidenceOf n1 ≤ confidenceOf n2 := by
  unfold confidenceOf
  rw [div_le_div_iff₀ (by positivity) (by positivity)]
  have hc : (n1 : Rat) ≤ (n2 : Rat) := Nat.cast_le.mpr h
  nlinarith [Nat.cast_nonneg (α := Rat) n1, Nat.cast_nonneg (α := Rat) n2]

lemma updateRow_confidence (p : Pattern) (i : Interaction) :
    (updateRow p i).confidence = confidenceOf (p.occurrences + 1) := rfl

/-- Claim C5: the confidence of a Pattern row is bounded in `[0,1]`, and for
a fixed success_rate the confidence curve is monotonically non-decreasing in
occurrences: n1 ≤ n2 implies confidence at n1 ≤ confidence at n2. -/
theorem confidence_bounded_and_monotone :
    (∀ (p : Pattern) (i : Interaction),
      0 ≤ (updateRow p i).confidence ∧ (updateRow p i).confidence ≤ 1) ∧
    (∀ n1 n2 : Nat, n1 ≤ n2 → confidenceOf n1 ≤ confidenceOf n2) := by
  refine ⟨fun p i => ?_, fun n1 n2 h => confidenceOf_mono h⟩
  rw [updateRow_confidence]
  exact ⟨confidenceOf_nonneg _, confidenceOf_le_one _⟩

/-- Claim C5 witness: the bounds at a concrete updated row and the
monotonicity at occurrences 1 ≤ 3. -/
theorem confidence_bounded_and_monotone_witness :
    (0 ≤ (updateRow (zeroPattern "math") sampleA).confidence ∧
      (updateRow (zeroPattern "math") sampleA).confidence ≤ 1) ∧
    confidenceOf 1 ≤ confidenceOf 3 :=
  ⟨confidence_bounded_and_monotone.1 (zeroPattern "math") sampleA,
    confidence_bounded_and_monotone.2 1 3 (by norm_num)⟩

lemma foldl_record_interactions (is : List Interaction) (st : LearnerState) :
    (is.foldl record st).interactions = st.interactions ++ is := by
  induction is generalizing st with
  | nil => simp
  | cons i tl ih =>
    rw [List.foldl_cons, ih]
    simp [record]

/-- Claim C3: after any sequence of record calls, `stats().success_rate`
equals the exact count-based ratio of interactions with success = true over
all logged interactions, and the value is the same for any reordering of
the record calls. -/
theorem stats_success_rate_exact (is is' : List Interaction)
    (hperm : is.Perm is') :
    (stats (is.foldl record emptyLearner)).success_rate
        = (successCount is : Rat) / ((is.length : Nat) : Rat) ∧
    (stats (is'.foldl record emptyLearner)).success_rate
        = (stats (is.foldl record emptyLearner)).success_rate := by
  have key : ∀ js : List Interaction,
      (stats (js.foldl record emptyLearner)).success_rate
        = (successCount js : Rat) / ((js.length : Nat) : Rat) := by
    intro js
    simp [stats, foldl_record_interactions, emptyLearner]
  refine ⟨key is, ?_⟩
  rw [key is, key is']
  rw [successCount, successCount, hperm.countP_eq, hperm.length_eq]

/-- Claim C3 witness: recording a success and a failure in either order
gives success_rate 1/2. -/
theorem stats_success_rate_exact_witness :
    (stats ([sampleA, sampleB].foldl record emptyLearner)).success_rate
        = (successCount [sampleA, sampleB] : Rat)
            / (([sampleA, sampleB].length : Nat) : Rat) ∧
    (stats ([sampleB, sampleA].foldl record emptyLearner)).success_rate
        = (stats ([sampleA, sampleB].foldl record emptyLearner)).success_rate :=
  stats_success_rate_exact [sampleA, sampleB] [sampleB, sampleA] (by decide)

/-- Claim C6: applyFeedback on an identifier absent from the interaction
store returns NotFound and leaves the entire learner state — interactions
and every Pattern aggregate — unchanged. -/
theorem applyFeedback_unknown_id (st : LearnerState) (iid : String)
    (succ : Bool) (fb : String)
    (h : ∀ i ∈ st.interactions, i.id ≠ iid) :
    applyFeedback st iid succ fb = (st, FeedbackResult.notFound) := by
  unfold applyFeedback
  rw [if_neg]
  intro hany
  rw [List.any_eq_true] at hany
  obtain ⟨i, hi, hid⟩ := hany
  exact h i hi (by simpa using hid)

/-- Claim C6 witness: feedback for id "zz" on a store holding only "i1"
returns NotFound with the state intact. -/
theorem applyFeedback_unknown_id_witness :
    applyFeedback { interactions := [sampleA], patterns := [] } "zz"
        false "off"
      = ({ interactions := [sampleA], patterns := [] },
          FeedbackResult.notFound) :=
  applyFeedback_unknown_id
    { interactions := [sampleA], patterns := [] } "zz" false "off"
    (by decide)

lemma immutEq_refl (a : Interaction) : immutEq a a :=
  ⟨rfl, rfl, rfl, rfl, rfl, rfl⟩

lemma immutEq_trans {a b c : Interaction} (h1 : immutEq a b)
    (h2 : immutEq b c) : immutEq a c := by
  obtain ⟨x1, x2, x3, x4, x5, x6⟩ := h1
  obtain ⟨y1, y2, y3, y4, y5, y6⟩ := h2
  exact ⟨x1.trans y1, x2.trans y2, x3.trans y3, x4.trans y4,
    x5.trans y5, x6.trans y6⟩

lemma step_preserves_immut (st : LearnerState) (op : Op) (i : Interaction)
    (h : i ∈ st.interactions) :
    ∃ i' ∈ (step st op).interactions, immutEq i i' := by
  cases op with
  | record j =>
    refine ⟨i, ?_, immutEq_refl i⟩
    simp only [step, record, List.mem_append]
    exact Or.inl h
  | feedback iid s f =>
    simp only [step, applyFeedback]
    by_cases hany : st.interactions.any (fun k => k.id = iid)
    · rw [if_pos hany]
      refine ⟨if i.id = iid then { i with success := s, feedback := some f }
        else i, ?_, ?_⟩
      · simpa using List.mem_map_of_mem _ h
      · by_cases hid : i.id = iid
        · rw [if_pos hid]
          exact ⟨rfl, rfl, rfl, rfl, rfl, rfl⟩
        · rw [if_neg hid]
          exact immutEq_refl i
    · rw [if_neg hany]
      exact ⟨i, h, immutEq_refl i⟩
  | stats => exact ⟨i, h, immutEq_refl i⟩
  | patternsFor t => exact ⟨i, h, immutEq_refl i⟩

/-- Claim C8: the core never deletes an interaction and never changes any
field other than the mutable success/feedback pair: after any sequence of
record, applyFeedback, stats and patternsFor operations, every previously
recorded interaction is still present with its identifier, query, response,
tags, timestamp and embedding unchanged. -/
theorem interactions_retained_and_immutable (st : LearnerState)
    (ops : List Op) (i : Interaction) (h : i ∈ st.interactions) :
    ∃ i' ∈ (run st ops).interactions, immutEq i i' := by
  induction ops generalizing st i with
  | nil => exact ⟨i, h, immutEq_refl i⟩
  | cons op tl ih =>
    obtain ⟨j, hj, hij⟩ := step_preserves_immut st op i h
    obtain ⟨k, hk, hjk⟩ := ih (step st op) j hj
    exact ⟨k, hk, immutEq_trans hij hjk⟩

/-- Claim C8 witness: after feedback on "i1", a new record and a stats
query, the interaction "i1" is still present with its immutable fields
intact. -/
theorem interactions_retained_and_immutable_witness :
    ∃ i' ∈ (run { interactions := [sampleA], patterns := [] }
        [Op.feedback "i1" false "wrong", Op.record sampleB,
          Op.stats]).interactions, immutEq sampleA i' :=
  interactions_retained_and_immutable
    { interactions := [sampleA], patterns := [] }
    [Op.feedback "i1" false "wrong", Op.record sampleB, Op.stats]
    sampleA (by decide)

lemma runChain_all_fail (req : Request) (chain : List Provider)
    (acc : List Attempt)
    (h : ∀ p ∈ chain, ∃ e, p.generate req = Except.error e) :
    runChain req chain acc
      = (acc ++ chain.map (fun p => Attempt.mk p.id (p.generate req)),
         Except.error (DispatchError.chainExhausted
           (acc ++ chain.map (fun p => Attempt.mk p.id (p.generate req))))) := by
  induction chain generalizing acc with
  | nil => simp [runChain]
  | cons p rest ih =>
    obtain ⟨e, he⟩ := h p (List.mem_cons_self p rest)
    have hstep : runChain req (p :: rest) acc
        = runChain req rest (acc ++ [Attempt.mk p.id (Except.error e)]) := by
      rw [runChain, he]
    rw [hstep, ih (acc ++ [Attempt.mk p.id (Except.error e)])
      (fun q hq => h q (List.mem_cons_of_mem p hq))]
    simp [he]

/-- Claim C2: in auto mode, when every provider of the chain fails, dispatch
attempts each provider exactly once in chain order — exactly K attempts for
a chain of length K — and returns chainExhausted carrying every attempted
provider together with its failure reason. -/
theorem auto_mode_chain_exhaustion (table : List Provider) (req : Request)
    (hv : invalidShape req = false)
    (hfail : ∀ p ∈ table, ∃ e, p.generate req = Except.error e) :
    (dispatch table req Mode.auto).1
        = table.map (fun p => Attempt.mk p.id (p.generate req)) ∧
    (dispatch table req Mode.auto).1.length = table.length ∧
    (dispatch table req Mode.auto).2
        = Except.error (DispatchError.chainExhausted
            (table.map (fun p => Attempt.mk p.id (p.generate req)))) := by
  have hd : dispatch table req Mode.auto
      = runChain req (chainFor table req.depth) [] := by
    unfold dispatch
    rw [if_neg (by simp [hv])]
  rw [hd, chainFor, runChain_all_fail req table [] hfail]
  simp

/-- Claim C2 witness: a two-provider chain where both providers fail yields
exactly two attempts, in order, and chainExhausted carrying both reasons. -/
theorem auto_mode_chain_exhaustion_witness :
    (dispatch failTable sampleReq Mode.auto).1
        = failTable.map (fun p => Attempt.mk p.id (p.generate sampleReq)) ∧
    (dispatch failTable sampleReq Mode.auto).1.length = failTable.length ∧
    (dispatch failTable sampleReq Mode.auto).2
        = Except.error (DispatchError.chainExhausted
            (failTable.map
              (fun p => Attempt.mk p.id (p.generate sampleReq)))) := by
  refine auto_mode_chain_exhaustion failTable sampleReq (by decide) ?_
  intro p hp
  rcases List.mem_cons.mp hp with h | hp
  · exact ⟨"timeout", by rw [h]; rfl⟩
  rcases List.mem_cons.mp hp with h | hp
  · exact ⟨"rate-limit", by rw [h]; rfl⟩
  · exact absurd hp (List.not_mem_nil p)

/-- Claim C4: when the mode names a specific provider, only that provider
is attempted; if it fails, dispatch surfaces that provider's error directly
with exactly one attempt in the trace — zero fallback attempts, no other
provider of the capability table contacted. -/
theorem named_mode_no_fallback (table : List Provider) (req : Request)
    (pid : String) (p : Provider) (e : String)
    (hv : invalidShape req = false)
    (hfind : table.find? (fun q => q.id = pid) = some p)
    (hgen : p.generate req = Except.error e) :
    dispatch table req (Mode.named pid)
      = ([Attempt.mk p.id (Except.error e)],
         Except.error (DispatchError.providerFailed p.id e)) := by
  simp [dispatch, hv, hfind, hgen]

/-- Claim C4 witness: naming the failing provider "openai" in a table that
also holds a succeeding provider yields exactly one attempt and that
provider's error. -/
theorem named_mode_no_fallback_witness :
    dispatch [provTimeout, provOk] sampleReq (Mode.named "openai")
      = ([Attempt.mk provTimeout.id (Except.error "timeout")],
         Except.error
           (DispatchError.providerFailed provTimeout.id "timeout")) :=
  named_mode_no_fallback [provTimeout, provOk] sampleReq "openai"
    provTimeout "timeout" (by decide) rfl rfl

/-- Claim C9: an empty (or whitespace-only) query with no attached image is
rejected synchronously.  In the client, handleSubmit returns before the
fetch: no network call happens and the message list is unchanged.  In the
dispatcher, such a request fails with invalidRequest in every mode with an
empty attempt trace — no provider contacted, no fallback. -/
theorem empty_request_rejected (st : ClientState) (table : List Provider)
    (d : Depth) (m : Mode)
    (hin : jsTrim st.input = "") (himg : st.selectedImage = none) :
    handleSubmitStart st = (st, false) ∧
    dispatch table { text := st.input, image := none, depth := d } m
      = ([], Except.error DispatchError.invalidRequest) := by
  constructor
  · unfold handleSubmitStart
    rw [if_pos (Or.inl ⟨hin, himg⟩)]
  · unfold dispatch
    rw [if_pos (by simp [invalidShape, hin])]

/-- Claim C9 witness: a whitespace-only input with no image neither touches
the message list nor issues the fetch, and the dispatcher rejects the same
text as invalidRequest with zero attempts. -/
theorem empty_request_rejected_witness :
    handleSubmitStart
        { messages := [], input := "   ", selectedImage := none,
          loading := false }
      = (({ messages := [], input := "   ", selectedImage := none
            , loading := false } : ClientState), false) ∧
    dispatch failTable { text := "   ", image := none, depth := Depth.quick }
        Mode.auto
      = ([], Except.error DispatchError.invalidRequest) :=
  empty_request_rejected
    { messages := [], input := "   ", selectedImage := none,
      loading := false } failTable Depth.quick Mode.auto (by decide) rfl

lemma clientLine_skip (parse : String → Option StreamEvent)
    (line : String) (h : jsTrim line = "" ∨ parse line = none) :
    ∀ msgs : List Message, clientLine parse msgs line = msgs := by
  intro msgs
  unfold clientLine
  rcases h with h | h
  · rw [if_pos h]
  · by_cases ht : jsTrim line = ""
    · rw [if_pos ht]
    · rw [if_neg ht, h]

/-- Claim C10: a blank line or a line JSON.parse rejects leaves the
accumulated assistant content and thinking-steps untouched, and the reader
goes on with the remaining lines of the chunk and with the subsequent
chunks; a single malformed line never aborts the stream or corrupts the
accumulated output. -/
theorem malformed_line_skipped (parse : String → Option StreamEvent)
    (msgs : List Message) (line : String)
    (h : jsTrim line = "" ∨ parse line = none) :
    clientLine parse msgs line = msgs ∧
    (∀ ls1 ls2 : List String,
      (ls1 ++ line :: ls2).foldl (clientLine parse) msgs
        = (ls1 ++ ls2).foldl (clientLine parse) msgs) ∧
    (∀ chunks : List String,
      clientStream parse (clientLine parse msgs line) chunks
        = clientStream parse msgs chunks) := by
  refine ⟨clientLine_skip parse line h msgs, ?_, ?_⟩
  · intro ls1 ls2
    rw [List.foldl_append, List.foldl_cons,
      clientLine_skip parse line h, ← List.foldl_append]
  · intro chunks
    rw [clientLine_skip parse line h]

/-- Claim C10 witness: the line "oops" (which sampleParse rejects) changes
nothing, dropped from the middle of a line sequence it leaves the result of
the remaining lines intact, and subsequent chunks proceed identically. -/
theorem malformed_line_skipped_witness :
    clientLine sampleParse [assistantInit] "oops" = [assistantInit] ∧
    (∀ ls1 ls2 : List String,
      (ls1 ++ "oops" :: ls2).foldl (clientLine sampleParse) [assistantInit]
        = (ls1 ++ ls2).foldl (clientLine sampleParse) [assistantInit]) ∧
    (∀ chunks : List String,
      clientStream sampleParse
          (clientLine sampleParse [assistantInit] "oops") chunks
        = clientStream sampleParse [assistantInit] chunks) :=
  malformed_line_skipped sampleParse [assistantInit] "oops"
    (Or.inr (by decide))

lemma applyEvent_append (msgs : List Message) (m : Message)
    (ev : StreamEvent) :
    applyEvent (msgs ++ [m]) ev = msgs ++ [updateMsg m ev] := by
  induction msgs with
  | nil => rfl
  | cons a tl ih =>
    cases tl with
    | nil => rfl
    | cons b tl2 =>
      show a :: applyEvent ((b :: tl2) ++ [m]) ev
        = a :: ((b :: tl2) ++ [updateMsg m ev])
      rw [ih]

lemma clientLine_parsed (parse : String → Option StreamEvent)
    (msgs : List Message) (line : String) (ev : StreamEvent)
    (hne : jsTrim line ≠ "") (hp : parse line = some ev) :
    clientLine parse msgs line = applyEvent msgs ev := by
  unfold clientLine
  rw [if_neg hne, hp]

lemma stream_accumulates (parse : String → Option StreamEvent)
    (msgs : List Message) (lines : List String) (evs : List StreamEvent)
    (h : List.Forall₂ (fun l ev => jsTrim l ≠ "" ∧ parse l = some ev)
      lines evs) (a : Message) :
    lines.foldl (clientLine parse) (msgs ++ [a])
      = msgs ++ [{ a with
          content := a.content ++ contentConcat evs
          thinking_steps := a.thinking_steps ++ stepsOf evs }] := by
  induction h generalizing a with
  | nil =>
    simp [contentConcat, stepsOf, String.append_empty]
  | @cons l ev ls evs hpair htl ih =>
    obtain ⟨hne, hp⟩ := hpair
    rw [List.foldl_cons, clientLine_parsed parse _ l ev hne hp,
      applyEvent_append, ih (updateMsg a ev)]
    cases ev with
    | content s =>
      simp only [updateMsg, contentConcat, stepsOf]
      rw [String.append_assoc]
    | step d =>
      simp only [updateMsg, contentConcat, stepsOf]
      rw [List.append_assoc]
      rfl
    | other =>
      simp only [updateMsg, contentConcat, stepsOf]

/-- Claim C7: within one dispatch the client consumes the stream's typed
events in arrival order — each event one newline-delimited JSON line — and
accumulates them exactly: after all events, the assistant message's text is
the in-order concatenation of the content fragment payloads and its
thinking-steps list is the step payloads in arrival order, with every
earlier message untouched. -/
theorem stream_events_accumulate_in_order
    (parse : String → Option StreamEvent) (msgs : List Message)
    (lines : List String) (evs : List StreamEvent)
    (h : List.Forall₂ (fun l ev => jsTrim l ≠ "" ∧ parse l = some ev)
      lines evs) :
    lines.foldl (clientLine parse) (msgs ++ [assistantInit])
      = msgs ++ [{ assistantInit with
          content := contentConcat evs
          thinking_steps := stepsOf evs }] := by
  rw [stream_accumulates parse msgs lines evs h assistantInit]
  rw [show assistantInit.content = "" from rfl,
    show assistantInit.thinking_steps = ([] : List ThinkingStep) from rfl,
    String.empty_append, List.nil_append]

/-- Claim C7 witness: the three lines "l1", "l2", "l3" carry two content
fragments and one step; the assistant message ends with content "Hello" and
that single step, in order. -/
theorem stream_events_accumulate_in_order_witness :
    ["l1", "l2", "l3"].foldl (clientLine sampleParse) ([] ++ [assistantInit])
      = [] ++ [{ assistantInit with
          content := contentConcat sampleEvents
          thinking_steps := stepsOf sampleEvents }] :=
  stream_events_accumulate_in_order sampleParse [] ["l1", "l2", "l3"]
    sampleEvents
    (List.Forall₂.cons ⟨by decide, rfl⟩
      (List.Forall₂.cons ⟨by decide, rfl⟩
        (List.Forall₂.cons ⟨by decide, rfl⟩ List.Forall₂.nil)))

end Z3ube
